import Mathlib

/-!
A shallow embedding of the triggerflow worker (`worker.go`): the workspace
data model, trigger-cache reconciliation (`updateTriggers`), trigger
contextualization (`contextualizeTrigger`), the dispatch loop body of
`ProcessWorkspace`, the per-trigger processor (`processTrigger`) and the
checkpoint coordinator (`checkpointTriggers`), together with theorems about
the specified properties.

Go maps are embedded as association lists (`mapLookup` / `mapInsert`, insert
overwrites); channels are embedded as explicit FIFO lists (the list order is
the delivery order); goroutine spawns are recorded as counters or lists in a
trace structure.  External collaborators (the `trigger` package's
`UnmarshalJSONTrigger` / `MarshalJSONTrigger`, the parser registry
`trigger.ContextParsers`, the condition/action function bodies and the
storage backend) are parameters gathered in an `Env` record: the worker only
observes their success/failure and result values.
-/

namespace Triggerflow

/-- Lookup in a Go-style map embedded as an association list. -/
def mapLookup {α : Type} (k : String) : List (String × α) → Option α
  | [] => none
  | (k', v) :: rest => if k = k' then some v else mapLookup k rest

/-- Insert (upsert) in a Go-style map embedded as an association list. -/
def mapInsert {α : Type} (k : String) (v : α) : List (String × α) → List (String × α)
  | [] => [(k, v)]
  | (k', v') :: rest => if k = k' then (k, v) :: rest else (k', v') :: mapInsert k v rest

/-- A cloudevents event as the worker observes it: the dispatcher reads only
`Subject()` and `Type()`; the payload is opaque. -/
structure Event where
  subject : String
  type : String
  payload : String
deriving DecidableEq, Repr

/-- An activation event declared by a trigger: a (subject, type) pair. -/
structure ActivationEvent where
  subject : String
  type : String
deriving DecidableEq, Repr

/-- The per-trigger context fields `contextualizeTrigger` writes.  Go's
`Context` additionally stores back-references to workspace-shared structures
(`EventSink`, `EventSources`, `Triggers`, `TriggerEventMapping`,
`GlobalContext`); a pure embedding cannot hold those circular references, so
the flag `workspaceRefsAttached` records that `contextualizeTrigger`
performed those five assignments. -/
structure TriggerContext where
  rawData : String
  conditionParsedData : Option String
  actionParsedData : Option String
  workspaceRefsAttached : Bool
deriving DecidableEq, Repr

/-- A trigger as stored in `trigger.Map`.  The condition and action function
values are embedded as names resolved through `Env.evalCondition` /
`Env.evalAction` (the function bodies live in the excluded `trigger`
package).  `conditionFunctionData` / `actionFunctionData` are Go
`map[string]string` values; the worker reads their `"name"` key. -/
structure Trigger where
  triggerID : String
  uuid : String
  condition : String
  action : String
  activationEvents : List ActivationEvent
  conditionFunctionData : List (String × String)
  actionFunctionData : List (String × String)
  context : TriggerContext
deriving DecidableEq, Repr

/-- The external collaborators of `worker.go`, observed only through their
results.  `contextParsers` is `trigger.ContextParsers` (a Go map from parser
name to parser function, `none` embedding a `nil` lookup); a parser maps the
trigger's raw configuration to parsed data or an error. -/
structure Env where
  contextParsers : String → Option (String → Except String String)
  unmarshalJSONTrigger : String → Except String Trigger
  marshalJSONTrigger : Trigger → Except String String
  evalCondition : String → TriggerContext → Event → Except String Bool
  evalAction : String → TriggerContext → Event → Except String Unit

/-- The workspace state the reconciliation and dispatch paths mutate:
`Triggers` (the trigger registry) and `TriggerEventMapping` (the activation
index, subject → type → list of triggers).  `EventSources` keeps the names of
the registered event-source adapters (`checkpointTriggers` spawns
`CommitEvents` on each).  The event sink and the checkpoint channel are
embedded as explicit lists passed to the functions that read them;
`GlobalContext` and the storage adapter handle are external state never read
by the embedded paths. -/
structure Workspace where
  workspaceName : String
  triggers : List (String × Trigger)
  triggerEventMapping : List (String × List (String × List Trigger))
  eventSources : List String
deriving DecidableEq, Repr

/-- The activation-index entry for a (subject, type) pair, reading empty
where Go's nested map lookups yield missing entries. -/
def indexList (ws : Workspace) (ae : ActivationEvent) : List Trigger :=
  ((mapLookup ae.type ((mapLookup ae.subject ws.triggerEventMapping).getD [])).getD [])

/-- The two-level comma-ok lookup `TriggerEventMapping[subject][type]` of the
dispatch loop: `none` when the subject is absent or the type is absent under
the subject (Go's nil inner map makes both cases indistinguishable). -/
def indexLookup (ws : Workspace) (subject ty : String) : Option (List Trigger) :=
  match mapLookup subject ws.triggerEventMapping with
  | none => none
  | some m => mapLookup ty m

/-- One iteration of the activation-event loop in `updateTriggers`: create
the subject and type entries if absent, then append the trigger to the entry
for `(ae.subject, ae.type)`. -/
def indexAdd (ws : Workspace) (ae : ActivationEvent) (trg : Trigger) : Workspace :=
  let subjMap := (mapLookup ae.subject ws.triggerEventMapping).getD []
  let entry := (mapLookup ae.type subjMap).getD []
  { ws with triggerEventMapping :=
      mapInsert ae.subject (mapInsert ae.type (entry ++ [trg]) subjMap) ws.triggerEventMapping }

/-- The first five assignments of `contextualizeTrigger`: attach the
workspace-shared references to the trigger's context (see
`TriggerContext.workspaceRefsAttached`). -/
def attachRefs (trg : Trigger) : Trigger :=
  { trg with context := { trg.context with workspaceRefsAttached := true } }

/-- The condition-parser block of `contextualizeTrigger`: resolve the named
parser of `ConditionFunctionData["name"]` from `trigger.ContextParsers`
(a `nil` lookup leaves the context untouched) and invoke it on the context's
raw data; an error is a Go `panic(err)`, embedded as `Except.error`. -/
def condContextualize (env : Env) (trg : Trigger) : Except String Trigger :=
  match env.contextParsers ((mapLookup "name" trg.conditionFunctionData).getD "") with
  | none => .ok trg
  | some p =>
    match p trg.context.rawData with
    | .error e => .error e
    | .ok parsed =>
      .ok { trg with context := { trg.context with conditionParsedData := some parsed } }

/-- The action-parser block of `contextualizeTrigger`, symmetric to
`condContextualize`. -/
def actionContextualize (env : Env) (trg : Trigger) : Except String Trigger :=
  match env.contextParsers ((mapLookup "name" trg.actionFunctionData).getD "") with
  | none => .ok trg
  | some p =>
    match p trg.context.rawData with
    | .error e => .error e
    | .ok parsed =>
      .ok { trg with context := { trg.context with actionParsedData := some parsed } }

/-- `contextualizeTrigger`: attach workspace-shared references to the
trigger's context, then run the condition-parser block and the action-parser
block in order; a parser panic propagates. -/
def contextualizeTrigger (env : Env) (trg : Trigger) : Except String Trigger :=
  match condContextualize env (attachRefs trg) with
  | .error e => .error e
  | .ok trg1 => actionContextualize env trg1

/-- The body of the `updateTriggers` loop for one stored `(triggerID,
triggerJSON)` entry: skip when the storage key is already a registry key;
otherwise unmarshal (logging and skipping the entry on error), contextualize
(a panic propagates as `Except.error`), insert the trigger into the registry
under its own `TriggerID`, and append it to the activation-index entry of
each of its declared activation events. -/
def processStoredTrigger (env : Env) (ws : Workspace) (entry : String × String) :
    Except String Workspace :=
  match mapLookup entry.1 ws.triggers with
  | some _ => .ok ws
  | none =>
    match env.unmarshalJSONTrigger entry.2 with
    | .error _ => .ok ws
    | .ok newTrigger =>
      match contextualizeTrigger env newTrigger with
      | .error e => .error e
      | .ok ctxTrigger =>
        let ws1 := { ws with triggers := mapInsert ctxTrigger.triggerID ctxTrigger ws.triggers }
        .ok (ctxTrigger.activationEvents.foldl (fun w ae => indexAdd w ae ctxTrigger) ws1)

/-- `updateTriggers` on the entry list returned by
`TriggerStorage.Get(workspaceName, "triggers")` (the storage adapter is
external, so the fetched entries are an explicit argument).  Entries are
processed in iteration order; a contextualization panic aborts the whole
reconciliation. -/
def updateTriggersWith (env : Env) (ws : Workspace) :
    List (String × String) → Except String Workspace
  | [] => .ok ws
  | entry :: rest =>
    match processStoredTrigger env ws entry with
    | .error e => .error e
    | .ok ws1 => updateTriggersWith env ws1 rest

/-- The observable outcome of one dispatch-loop iteration of
`ProcessWorkspace`: the sends to trigger event channels (in send order), the
number of `updateTriggers` calls, the events re-submitted to the sink, and
the resulting workspace. -/
structure DispatchResult where
  sends : List (Trigger × Event)
  updateCalls : Nat
  resubmitted : List Event
  ws : Workspace
deriving DecidableEq, Repr

/-- The body of the `for event := range workspace.EventSink` loop: on an
index hit, forward the event to each matching trigger's channel; on a miss,
call `updateTriggers` once and re-submit the event to the sink. -/
def dispatchEvent (env : Env) (storage : List (String × String)) (ws : Workspace)
    (event : Event) : Except String DispatchResult :=
  match indexLookup ws event.subject event.type with
  | some matchingTrgs =>
    .ok { sends := matchingTrgs.map (fun t => (t, event)), updateCalls := 0,
          resubmitted := [], ws := ws }
  | none =>
    match updateTriggersWith env ws storage with
    | .error e => .error e
    | .ok ws' =>
      .ok { sends := [], updateCalls := 1, resubmitted := [event], ws := ws' }

/-- The dispatch loop run over the current sink contents, accumulating the
sends and re-submissions of each iteration in order. -/
def dispatchLoop (env : Env) (storage : List (String × String)) (ws : Workspace) :
    List Event → Except String (Workspace × List (Trigger × Event) × List Event)
  | [] => .ok (ws, [], [])
  | e :: rest =>
    match dispatchEvent env storage ws e with
    | .error err => .error err
    | .ok r =>
      match dispatchLoop env storage r.ws rest with
      | .error err => .error err
      | .ok (ws', sends, resub) => .ok (ws', r.sends ++ sends, r.resubmitted ++ resub)

/-- The trace of one `processTrigger` goroutine run over the contents of its
private event channel: the events whose condition was evaluated, the events
on which the action was invoked, the events whose action completed (the
"action fired" log line), the number of spawned `go checkpointTriggers()`
calls, the values sent on `CheckpointChannel`, and whether the processor
returned because of an evaluation error (Terminated). -/
structure ProcTrace where
  evaluated : List Event
  actionInvocations : List Event
  fired : List Event
  checkpointSpawns : Nat
  checkpointSends : List Trigger
  terminated : Bool
deriving DecidableEq, Repr

/-- `processTrigger`: consume the private queue in FIFO order; evaluate the
condition; on condition error, log and return; on condition true, invoke the
action; on action error, log and return; on action success, spawn
`checkpointTriggers` and continue.  No statement sends on
`CheckpointChannel`. -/
def processTrigger (env : Env) (trg : Trigger) : List Event → ProcTrace
  | [] =>
    { evaluated := [], actionInvocations := [], fired := [], checkpointSpawns := 0,
      checkpointSends := [], terminated := false }
  | e :: rest =>
    match env.evalCondition trg.condition trg.context e with
    | .error _ =>
      { evaluated := [e], actionInvocations := [], fired := [], checkpointSpawns := 0,
        checkpointSends := [], terminated := true }
    | .ok false =>
      let t := processTrigger env trg rest
      { t with evaluated := e :: t.evaluated }
    | .ok true =>
      match env.evalAction trg.action trg.context e with
      | .error _ =>
        { evaluated := [e], actionInvocations := [e], fired := [], checkpointSpawns := 0,
          checkpointSends := [], terminated := true }
      | .ok _ =>
        let t := processTrigger env trg rest
        { t with evaluated := e :: t.evaluated,
                 actionInvocations := e :: t.actionInvocations,
                 fired := e :: t.fired,
                 checkpointSpawns := t.checkpointSpawns + 1 }

/-- The processor goroutines run independently, one per trigger on its own
private queue: the system-level run is the pointwise run of each
processor. -/
def runProcessors (env : Env) (procs : List (Trigger × List Event)) : List ProcTrace :=
  procs.map (fun p => processTrigger env p.1 p.2)

/-- The observable outcome of one `checkpointTriggers` invocation given the
list of values received from `CheckpointChannel`: the adapters on which
`CommitEvents` was spawned, the `Put(workspaceName, "triggers", triggerID,
encoded)` writes spawned, and the trigger IDs whose serialization failed
(logged and skipped). -/
structure CheckpointRun where
  commits : List String
  puts : List (String × String × String × String)
  marshalFailures : List String
deriving DecidableEq, Repr

/-- `checkpointTriggers`: spawn `CommitEvents` on every registered event
source, then drain the checkpoint channel, serializing each received trigger
and spawning a storage `Put` for it; a serialization error is logged and
skipped. -/
def checkpointTriggers (env : Env) (ws : Workspace) (queued : List Trigger) : CheckpointRun :=
  { commits := ws.eventSources,
    puts := queued.filterMap (fun trg =>
      match env.marshalJSONTrigger trg with
      | .ok encoded => some (ws.workspaceName, "triggers", trg.triggerID, encoded)
      | .error _ => none),
    marshalFailures := queued.filterMap (fun trg =>
      match env.marshalJSONTrigger trg with
      | .ok _ => none
      | .error _ => some trg.triggerID) }

/-- The sends produced by a run of the dispatch loop in which every event
hits the activation index: each event is forwarded, in sink order, to each
trigger of its index entry. -/
def hitSends (ws : Workspace) (es : List Event) : List (Trigger × Event) :=
  es.flatMap (fun e => ((indexLookup ws e.subject e.type).getD []).map (fun t => (t, e)))

/-- The private-queue contents a list of dispatch sends produces for one
trigger, in delivery order. -/
def queueOf (trg : Trigger) (sends : List (Trigger × Event)) : List Event :=
  (sends.filter (fun p => decide (p.1 = trg))).map Prod.snd

/-- Data-model invariant (b) of the spec: every registered trigger sits in
the registry under its own `TriggerID` and every one of its declared
activation events has an activation-index entry containing it. -/
def RegistryIndexed (ws : Workspace) : Prop :=
  ∀ k trg, mapLookup k ws.triggers = some trg →
    trg.triggerID = k ∧ ∀ ae ∈ trg.activationEvents, trg ∈ indexList ws ae

/-- One event is processed without an evaluation error by a trigger's
processor: the condition returns a value, and when that value is true the
action succeeds. -/
def evalOk (env : Env) (trg : Trigger) (e : Event) : Prop :=
  (∃ b, env.evalCondition trg.condition trg.context e = .ok b) ∧
  (env.evalCondition trg.condition trg.context e = .ok true →
    env.evalAction trg.action trg.context e = .ok ())

/-- Whether an event makes the trigger's condition evaluate to true (the
processor then fires the action). -/
def firesOn (env : Env) (trg : Trigger) (e : Event) : Bool :=
  match env.evalCondition trg.condition trg.context e with
  | .ok true => true
  | _ => false

/-! ### Concrete fixtures used by the witness theorems -/

/-- An empty trigger context, as a freshly unmarshalled trigger carries. -/
def ctx0 : TriggerContext :=
  { rawData := "", conditionParsedData := none, actionParsedData := none,
    workspaceRefsAttached := false }

/-- A benign trigger: one activation event, always-true condition, no-op
action, no named parsers. -/
def t1 : Trigger :=
  { triggerID := "t1", uuid := "u1", condition := "always_true", action := "noop",
    activationEvents := [⟨"orders", "created"⟩], conditionFunctionData := [],
    actionFunctionData := [], context := ctx0 }

/-- A trigger declaring the same activation event twice. -/
def tDup : Trigger :=
  { triggerID := "t2", uuid := "u2", condition := "always_true", action := "noop",
    activationEvents := [⟨"orders", "created"⟩, ⟨"orders", "created"⟩],
    conditionFunctionData := [], actionFunctionData := [], context := ctx0 }

/-- A trigger whose condition configuration names a failing parser. -/
def tBadCfg : Trigger :=
  { triggerID := "t3", uuid := "u3", condition := "always_true", action := "noop",
    activationEvents := [⟨"orders", "created"⟩],
    conditionFunctionData := [("name", "boom")], actionFunctionData := [], context := ctx0 }

/-- A trigger whose action evaluation errors. -/
def tBadAct : Trigger :=
  { triggerID := "t4", uuid := "u4", condition := "always_true", action := "explode",
    activationEvents := [⟨"orders", "created"⟩], conditionFunctionData := [],
    actionFunctionData := [], context := ctx0 }

/-- A concrete environment for the witness theorems. -/
def testEnv : Env :=
  { contextParsers := fun name =>
      if name = "boom" then some (fun _ => .error "boom error") else none,
    unmarshalJSONTrigger := fun s =>
      if s = "t1json" then .ok t1
      else if s = "dupjson" then .ok tDup
      else if s = "badcfg" then .ok tBadCfg
      else .error "bad json",
    marshalJSONTrigger := fun trg => .ok trg.triggerID,
    evalCondition := fun name _ _ =>
      if name = "always_true" then .ok true
      else if name = "always_false" then .ok false
      else .error "no such condition",
    evalAction := fun name _ _ =>
      if name = "noop" then .ok () else .error "action failed" }

/-- An empty workspace, as `ProcessWorkspace` builds before reconciliation. -/
def ws0 : Workspace :=
  { workspaceName := "w", triggers := [], triggerEventMapping := [], eventSources := ["kafka"] }

/-- `t1` as contextualization leaves it (no parsers named, references
attached). -/
def t1c : Trigger := { t1 with context := { t1.context with workspaceRefsAttached := true } }

/-- `tDup` after contextualization. -/
def tDupC : Trigger := { tDup with context := { tDup.context with workspaceRefsAttached := true } }

/-- The workspace reconciliation builds from `ws0` and the single stored
entry for `t1`. -/
def ws1r : Workspace :=
  { workspaceName := "w", triggers := [("t1", t1c)],
    triggerEventMapping := [("orders", [("created", [t1c])])], eventSources := ["kafka"] }

/-- A concrete event matching `t1`'s activation event. -/
def ev1 : Event := { subject := "orders", type := "created", payload := "p1" }

/-- A second concrete event matching `t1`'s activation event. -/
def ev2 : Event := { subject := "orders", type := "created", payload := "p2" }

/-- A concrete event matching no activation event. -/
def evMiss : Event := { subject := "payments", type := "void", payload := "p3" }

/-! ### Association-list map lemmas -/

theorem mapLookup_mapInsert_self {α : Type} (k : String) (v : α) (m : List (String × α)) :
    mapLookup k (mapInsert k v m) = some v := by
  induction m with
  | nil => simp [mapInsert, mapLookup]
  | cons p rest ih =>
    obtain ⟨k', v'⟩ := p
    by_cases h : k = k'
    · simp [mapInsert, h, mapLookup]
    · simp [mapInsert, h, mapLookup, ih]

theorem mapLookup_mapInsert_ne {α : Type} {k k' : String} (h : k ≠ k') (v : α)
    (m : List (String × α)) : mapLookup k (mapInsert k' v m) = mapLookup k m := by
  induction m with
  | nil => simp [mapInsert, mapLookup, h]
  | cons p rest ih =>
    obtain ⟨k'', v''⟩ := p
    by_cases h2 : k' = k''
    · subst h2
      simp [mapInsert, mapLookup, h]
    · by_cases h3 : k = k''
      · simp [mapInsert, h2, mapLookup, h3]
      · simp [mapInsert, h2, mapLookup, h3, ih]

theorem mapLookup_mapInsert_isSome {α : Type} {k : String} (k' : String) (v : α)
    {m : List (String × α)} (h : (mapLookup k m).isSome = true) :
    (mapLookup k (mapInsert k' v m)).isSome = true := by
  by_cases he : k = k'
  · subst he
    simp [mapLookup_mapInsert_self]
  · rw [mapLookup_mapInsert_ne he]
    exact h

/-! ### Activation-index lemmas -/

@[simp] theorem indexAdd_triggers (ws : Workspace) (ae : ActivationEvent) (trg : Trigger) :
    (indexAdd ws ae trg).triggers = ws.triggers := rfl

theorem indexList_triggers_irrelevant (ws : Workspace) (m : List (String × Trigger))
    (ae : ActivationEvent) : indexList { ws with triggers := m } ae = indexList ws ae := rfl

theorem indexList_indexAdd (ws : Workspace) (ae ae' : ActivationEvent) (trg : Trigger) :
    indexList (indexAdd ws ae' trg) ae =
      if ae = ae' then indexList ws ae ++ [trg] else indexList ws ae := by
  obtain ⟨s, t⟩ := ae
  obtain ⟨s', t'⟩ := ae'
  simp only [indexAdd, indexList, ActivationEvent.mk.injEq]
  by_cases hs : s = s'
  · subst hs
    by_cases ht : t = t'
    · subst ht
      simp [mapLookup_mapInsert_self]
    · simp [mapLookup_mapInsert_self, mapLookup_mapInsert_ne ht, ht]
  · simp [mapLookup_mapInsert_ne hs, hs]

theorem count_indexList_indexAdd (ws : Workspace) (ae ae' : ActivationEvent) (trg x : Trigger) :
    (indexList (indexAdd ws ae' trg) ae).count x =
      (indexList ws ae).count x + (if ae = ae' ∧ x = trg then 1 else 0) := by
  rw [indexList_indexAdd]
  by_cases h : ae = ae'
  · subst h
    by_cases hx : x = trg
    · subst hx
      simp [List.count_append]
    · simp [hx, List.count_append, List.count_singleton']
  · simp [h]

theorem foldl_indexAdd_triggers (trg : Trigger) (L : List ActivationEvent) (ws : Workspace) :
    (L.foldl (fun w ae => indexAdd w ae trg) ws).triggers = ws.triggers := by
  induction L generalizing ws with
  | nil => rfl
  | cons a L ih => simp [List.foldl_cons, ih]

theorem count_indexList_foldl_indexAdd (trg x : Trigger) (L : List ActivationEvent)
    (ws : Workspace) (ae : ActivationEvent) :
    (indexList (L.foldl (fun w a => indexAdd w a trg) ws) ae).count x =
      (indexList ws ae).count x + (if x = trg then L.count ae else 0) := by
  induction L generalizing ws with
  | nil => simp
  | cons a L ih =>
    rw [List.foldl_cons, ih, count_indexList_indexAdd]
    by_cases hx : x = trg
    · subst hx
      by_cases ha : ae = a
      · subst ha
        simp [List.count_cons]
        omega
      · simp [ha, List.count_cons]
    · simp [hx]

theorem mem_indexList_foldl_indexAdd_self (trg : Trigger) (L : List ActivationEvent)
    (ws : Workspace) {ae : ActivationEvent} (h : ae ∈ L) :
    trg ∈ indexList (L.foldl (fun w a => indexAdd w a trg) ws) ae := by
  rw [← List.count_pos_iff, count_indexList_foldl_indexAdd, if_pos rfl]
  have h1 : 0 < L.count ae := List.count_pos_iff.mpr h
  omega

theorem mem_indexList_foldl_indexAdd_mono (trg x : Trigger) (L : List ActivationEvent)
    (ws : Workspace) {ae : ActivationEvent} (h : x ∈ indexList ws ae) :
    x ∈ indexList (L.foldl (fun w a => indexAdd w a trg) ws) ae := by
  rw [← List.count_pos_iff]
  rw [count_indexList_foldl_indexAdd]
  have h1 : 0 < (indexList ws ae).count x := List.count_pos_iff.mpr h
  omega

/-! ### Contextualization and reconciliation-step lemmas -/

theorem condContextualize_preserves {env : Env} {trg trg' : Trigger}
    (h : condContextualize env trg = .ok trg') :
    trg'.triggerID = trg.triggerID ∧ trg'.uuid = trg.uuid ∧
      trg'.activationEvents = trg.activationEvents ∧
      trg'.condition = trg.condition ∧ trg'.action = trg.action := by
  unfold condContextualize at h
  split at h
  · cases h
    simp
  · split at h
    · exact absurd h (by simp)
    · cases h
      simp

theorem actionContextualize_preserves {env : Env} {trg trg' : Trigger}
    (h : actionContextualize env trg = .ok trg') :
    trg'.triggerID = trg.triggerID ∧ trg'.uuid = trg.uuid ∧
      trg'.activationEvents = trg.activationEvents ∧
      trg'.condition = trg.condition ∧ trg'.action = trg.action := by
  unfold actionContextualize at h
  split at h
  · cases h
    simp
  · split at h
    · exact absurd h (by simp)
    · cases h
      simp

theorem contextualizeTrigger_preserves {env : Env} {trg ctxTrg : Trigger}
    (h : contextualizeTrigger env trg = .ok ctxTrg) :
    ctxTrg.triggerID = trg.triggerID ∧ ctxTrg.uuid = trg.uuid ∧
      ctxTrg.activationEvents = trg.activationEvents ∧
      ctxTrg.condition = trg.condition ∧ ctxTrg.action = trg.action := by
  unfold contextualizeTrigger at h
  split at h
  · exact absurd h (by simp)
  · rename_i trg1 hcond
    obtain ⟨h1, h2, h3, h4, h5⟩ := condContextualize_preserves hcond
    obtain ⟨g1, g2, g3, g4, g5⟩ := actionContextualize_preserves h
    simp only [attachRefs] at h1 h2 h3 h4 h5
    exact ⟨g1.trans h1, g2.trans h2, g3.trans h3, g4.trans h4, g5.trans h5⟩

theorem processStoredTrigger_ok_cases {env : Env} {ws ws1 : Workspace}
    {entry : String × String} (h : processStoredTrigger env ws entry = .ok ws1) :
    (ws1 = ws ∧ ((mapLookup entry.1 ws.triggers).isSome = true ∨
        ∃ e, env.unmarshalJSONTrigger entry.2 = .error e)) ∨
      (∃ T cT, mapLookup entry.1 ws.triggers = none ∧
        env.unmarshalJSONTrigger entry.2 = .ok T ∧
        contextualizeTrigger env T = .ok cT ∧
        ws1 = cT.activationEvents.foldl (fun w ae => indexAdd w ae cT)
          { ws with triggers := mapInsert cT.triggerID cT ws.triggers }) := by
  unfold processStoredTrigger at h
  split at h
  · cases h
    rename_i heq
    exact Or.inl ⟨rfl, Or.inl (by simp [heq])⟩
  · rename_i hnone
    split at h
    · cases h
      rename_i e heq
      exact Or.inl ⟨rfl, Or.inr ⟨e, heq⟩⟩
    · rename_i T hum
      split at h
      · exact absurd h (by simp)
      · rename_i cT hctx
        cases h
        exact Or.inr ⟨T, cT, hnone, hum, hctx, rfl⟩

theorem processStoredTrigger_presence {env : Env} {ws ws1 : Workspace}
    {entry : String × String} {k : String} (h : processStoredTrigger env ws entry = .ok ws1)
    (hp : (mapLookup k ws.triggers).isSome = true) :
    (mapLookup k ws1.triggers).isSome = true := by
  rcases processStoredTrigger_ok_cases h with ⟨rfl, _⟩ | ⟨T, cT, _, _, _, rfl⟩
  · exact hp
  · rw [foldl_indexAdd_triggers]
    exact mapLookup_mapInsert_isSome _ _ hp

theorem processStoredTrigger_lookup_stable {env : Env} {ws ws1 : Workspace}
    {entry : String × String} {k : String} (h : processStoredTrigger env ws entry = .ok ws1)
    (hk : ∀ T, env.unmarshalJSONTrigger entry.2 = .ok T → T.triggerID ≠ k) :
    mapLookup k ws1.triggers = mapLookup k ws.triggers := by
  rcases processStoredTrigger_ok_cases h with ⟨rfl, _⟩ | ⟨T, cT, _, hum, hctx, rfl⟩
  · rfl
  · rw [foldl_indexAdd_triggers]
    have hne : cT.triggerID ≠ k := by
      rw [(contextualizeTrigger_preserves hctx).1]
      exact hk T hum
    exact mapLookup_mapInsert_ne (Ne.symm hne) _ _

theorem processStoredTrigger_index_mono {env : Env} {ws ws1 : Workspace}
    {entry : String × String} {x : Trigger} {ae : ActivationEvent}
    (h : processStoredTrigger env ws entry = .ok ws1) (hm : x ∈ indexList ws ae) :
    x ∈ indexList ws1 ae := by
  rcases processStoredTrigger_ok_cases h with ⟨rfl, _⟩ | ⟨T, cT, _, _, _, rfl⟩
  · exact hm
  · exact mem_indexList_foldl_indexAdd_mono _ _ _ _ hm

theorem updateTriggersWith_ok_cons {env : Env} {ws ws' : Workspace}
    {entry : String × String} {rest : List (String × String)}
    (h : updateTriggersWith env ws (entry :: rest) = .ok ws') :
    ∃ ws1, processStoredTrigger env ws entry = .ok ws1 ∧
      updateTriggersWith env ws1 rest = .ok ws' := by
  unfold updateTriggersWith at h
  split at h
  · exact absurd h (by simp)
  · rename_i ws1 heq
    exact ⟨ws1, heq, h⟩

theorem updateTriggersWith_presence {env : Env} {storage : List (String × String)}
    {ws ws' : Workspace} {k : String} (h : updateTriggersWith env ws storage = .ok ws')
    (hp : (mapLookup k ws.triggers).isSome = true) :
    (mapLookup k ws'.triggers).isSome = true := by
  induction storage generalizing ws with
  | nil => cases h; exact hp
  | cons entry rest ih =>
    obtain ⟨ws1, h1, h2⟩ := updateTriggersWith_ok_cons h
    exact ih h2 (processStoredTrigger_presence h1 hp)

theorem updateTriggersWith_lookup_stable {env : Env} {storage : List (String × String)}
    {ws ws' : Workspace} {k : String} (h : updateTriggersWith env ws storage = .ok ws')
    (hk : ∀ entry ∈ storage, ∀ T, env.unmarshalJSONTrigger entry.2 = .ok T →
      T.triggerID ≠ k) :
    mapLookup k ws'.triggers = mapLookup k ws.triggers := by
  induction storage generalizing ws with
  | nil => cases h; rfl
  | cons entry rest ih =>
    obtain ⟨ws1, h1, h2⟩ := updateTriggersWith_ok_cons h
    rw [ih h2 (fun e he => hk e (List.mem_cons_of_mem _ he)),
      processStoredTrigger_lookup_stable h1 (hk entry (List.mem_cons_self _ _))]

theorem updateTriggersWith_index_mono {env : Env} {storage : List (String × String)}
    {ws ws' : Workspace} {x : Trigger} {ae : ActivationEvent}
    (h : updateTriggersWith env ws storage = .ok ws') (hm : x ∈ indexList ws ae) :
    x ∈ indexList ws' ae := by
  induction storage generalizing ws with
  | nil => cases h; exact hm
  | cons entry rest ih =>
    obtain ⟨ws1, h1, h2⟩ := updateTriggersWith_ok_cons h
    exact ih h2 (processStoredTrigger_index_mono h1 hm)

/-- Every stored entry whose JSON unmarshals to a trigger carrying the entry
key as its `TriggerID` is registered once the reconciliation run returns. -/
theorem updateTriggersWith_registers {env : Env} {storage : List (String × String)}
    {ws ws' : Workspace} {k json : String} {T : Trigger}
    (h : updateTriggersWith env ws storage = .ok ws') (hmem : (k, json) ∈ storage)
    (hum : env.unmarshalJSONTrigger json = .ok T) (hid : T.triggerID = k) :
    (mapLookup k ws'.triggers).isSome = true := by
  induction storage generalizing ws with
  | nil => cases hmem
  | cons entry rest ih =>
    obtain ⟨ws1, h1, h2⟩ := updateTriggersWith_ok_cons h
    rcases List.mem_cons.mp hmem with heq | hrest
    · subst heq
      have hp : (mapLookup k ws1.triggers).isSome = true := by
        rcases processStoredTrigger_ok_cases h1 with ⟨rfl, hcase⟩ | ⟨T', cT, _, hum', hctx, rfl⟩
        · rcases hcase with hsk | ⟨e, he⟩
          · exact hsk
          · rw [hum] at he
            exact absurd he (by simp)
        · rw [hum] at hum'
          cases hum'
          rw [foldl_indexAdd_triggers]
          have : cT.triggerID = k := by
            rw [(contextualizeTrigger_preserves hctx).1, hid]
          rw [← this]
          simp [mapLookup_mapInsert_self]
      exact updateTriggersWith_presence h2 hp
    · exact ih h2 hrest

theorem processStoredTrigger_skip {env : Env} {ws : Workspace} {entry : String × String}
    (h : (mapLookup entry.1 ws.triggers).isSome = true) :
    processStoredTrigger env ws entry = .ok ws := by
  obtain ⟨v, hv⟩ := Option.isSome_iff_exists.mp h
  simp [processStoredTrigger, hv]

theorem processStoredTrigger_unmarshal_error {env : Env} {ws : Workspace}
    {entry : String × String} {e : String} (h : env.unmarshalJSONTrigger entry.2 = .error e) :
    processStoredTrigger env ws entry = .ok ws := by
  unfold processStoredTrigger
  split
  · rfl
  · rw [h]

theorem processStoredTrigger_ctx_error {env : Env} {ws : Workspace}
    {entry : String × String} {T : Trigger} {e : String}
    (h1 : mapLookup entry.1 ws.triggers = none)
    (h2 : env.unmarshalJSONTrigger entry.2 = .ok T)
    (h3 : contextualizeTrigger env T = .error e) :
    processStoredTrigger env ws entry = .error e := by
  simp [processStoredTrigger, h1, h2, h3]

theorem processStoredTrigger_fresh {env : Env} {ws : Workspace}
    {entry : String × String} {T cT : Trigger}
    (h1 : mapLookup entry.1 ws.triggers = none)
    (h2 : env.unmarshalJSONTrigger entry.2 = .ok T)
    (h3 : contextualizeTrigger env T = .ok cT) :
    processStoredTrigger env ws entry =
      .ok (cT.activationEvents.foldl (fun w ae => indexAdd w ae cT)
        { ws with triggers := mapInsert cT.triggerID cT ws.triggers }) := by
  simp [processStoredTrigger, h1, h2, h3]

theorem updateTriggersWith_cons_ok {env : Env} {ws ws1 : Workspace}
    {entry : String × String} (rest : List (String × String))
    (h : processStoredTrigger env ws entry = .ok ws1) :
    updateTriggersWith env ws (entry :: rest) = updateTriggersWith env ws1 rest := by
  have hdef : updateTriggersWith env ws (entry :: rest) =
      match processStoredTrigger env ws entry with
      | .error e => .error e
      | .ok w => updateTriggersWith env w rest := rfl
  rw [hdef, h]

theorem updateTriggersWith_cons_error {env : Env} {ws : Workspace}
    {entry : String × String} {e : String} (rest : List (String × String))
    (h : processStoredTrigger env ws entry = .error e) :
    updateTriggersWith env ws (entry :: rest) = .error e := by
  have hdef : updateTriggersWith env ws (entry :: rest) =
      match processStoredTrigger env ws entry with
      | .error e' => .error e'
      | .ok w => updateTriggersWith env w rest := rfl
  rw [hdef, h]

theorem updateTriggersWith_all_identity {env : Env} {ws : Workspace}
    {storage : List (String × String)}
    (h : ∀ entry ∈ storage, processStoredTrigger env ws entry = .ok ws) :
    updateTriggersWith env ws storage = .ok ws := by
  induction storage with
  | nil => rfl
  | cons entry rest ih =>
    rw [updateTriggersWith_cons_ok rest (h entry (List.mem_cons_self _ _))]
    exact ih (fun e he => h e (List.mem_cons_of_mem _ he))

theorem updateTriggersWith_append (env : Env) (ws : Workspace)
    (l1 l2 : List (String × String)) :
    updateTriggersWith env ws (l1 ++ l2) =
      match updateTriggersWith env ws l1 with
      | .error e => .error e
      | .ok w => updateTriggersWith env w l2 := by
  induction l1 generalizing ws with
  | nil => rfl
  | cons entry rest ih =>
    rw [List.cons_append]
    cases hstep : processStoredTrigger env ws entry with
    | error e =>
      rw [updateTriggersWith_cons_error _ hstep, updateTriggersWith_cons_error _ hstep]
    | ok ws1 =>
      rw [updateTriggersWith_cons_ok _ hstep, updateTriggersWith_cons_ok _ hstep, ih]

theorem processStoredTrigger_registryIndexed {env : Env} {ws ws1 : Workspace}
    {entry : String × String} (h : processStoredTrigger env ws entry = .ok ws1)
    (hinv : RegistryIndexed ws) : RegistryIndexed ws1 := by
  rcases processStoredTrigger_ok_cases h with ⟨rfl, _⟩ | ⟨T, cT, hnone, hum, hctx, rfl⟩
  · exact hinv
  · intro k trg hlk
    rw [foldl_indexAdd_triggers] at hlk
    by_cases hk : k = cT.triggerID
    · subst hk
      rw [mapLookup_mapInsert_self] at hlk
      cases hlk
      exact ⟨rfl, fun ae hae => mem_indexList_foldl_indexAdd_self _ _ _ hae⟩
    · rw [mapLookup_mapInsert_ne hk] at hlk
      obtain ⟨hid, hidx⟩ := hinv k trg hlk
      exact ⟨hid, fun ae hae =>
        mem_indexList_foldl_indexAdd_mono _ _ _ _ (hidx ae hae)⟩

theorem updateTriggersWith_registryIndexed {env : Env}
    {storage : List (String × String)} {ws ws' : Workspace}
    (h : updateTriggersWith env ws storage = .ok ws') (hinv : RegistryIndexed ws) :
    RegistryIndexed ws' := by
  induction storage generalizing ws with
  | nil => cases h; exact hinv
  | cons entry rest ih =>
    obtain ⟨ws1, h1, h2⟩ := updateTriggersWith_ok_cons h
    exact ih h2 (processStoredTrigger_registryIndexed h1 hinv)

/-! ### Claim theorems for reconciliation -/

/-- C2: for every trigger present in storage when `updateTriggers` runs
(under the storage contract that each entry's key is the stored trigger's
identifier and its JSON unmarshals, starting from a state satisfying
invariant (b) in which any already-registered trigger for that key declares
the same activation events), after `updateTriggers` returns, the trigger's
identifier is a key of the trigger registry and every (subject, type) pair
among its activation events has an activation-index entry containing the
registered trigger. -/
theorem c2_stored_trigger_registered_and_indexed
    {env : Env} {storage : List (String × String)} {ws ws' : Workspace}
    {k json : String} {T : Trigger}
    (hrun : updateTriggersWith env ws storage = .ok ws')
    (hmem : (k, json) ∈ storage)
    (hum : env.unmarshalJSONTrigger json = .ok T)
    (hkeys : ∀ entry ∈ storage, ∀ T', env.unmarshalJSONTrigger entry.2 = .ok T' →
      T'.triggerID = entry.1)
    (hnodup : (storage.map Prod.fst).Nodup)
    (hinv : RegistryIndexed ws)
    (hagree : ∀ trg0, mapLookup k ws.triggers = some trg0 →
      trg0.activationEvents = T.activationEvents) :
    ∃ trg, mapLookup k ws'.triggers = some trg ∧ trg.triggerID = k ∧
      trg.activationEvents = T.activationEvents ∧
      ∀ ae ∈ T.activationEvents, trg ∈ indexList ws' ae := by
  induction storage generalizing ws with
  | nil => cases hmem
  | cons entry rest ih =>
    obtain ⟨ws1, h1, h2⟩ := updateTriggersWith_ok_cons hrun
    rw [List.map_cons, List.nodup_cons] at hnodup
    rcases List.mem_cons.mp hmem with heq | hrest
    · -- our entry is the head: after the step it is registered and indexed
      subst heq
      have hid : T.triggerID = k := hkeys (k, json) (List.mem_cons_self _ _) T hum
      have hstep : ∃ trg1, mapLookup k ws1.triggers = some trg1 ∧ trg1.triggerID = k ∧
          trg1.activationEvents = T.activationEvents ∧
          ∀ ae ∈ T.activationEvents, trg1 ∈ indexList ws1 ae := by
        rcases processStoredTrigger_ok_cases h1 with ⟨rfl, hcase⟩ | ⟨T', cT, hnone, hum', hctx, rfl⟩
        · rcases hcase with hsk | ⟨e, he⟩
          · obtain ⟨trg0, htrg0⟩ := Option.isSome_iff_exists.mp hsk
            obtain ⟨hid0, hidx0⟩ := hinv k trg0 htrg0
            have hev := hagree trg0 htrg0
            refine ⟨trg0, htrg0, hid0, hev, fun ae hae => ?_⟩
            exact hidx0 ae (hev ▸ hae)
          · dsimp only at he
            rw [hum] at he
            exact absurd he (by simp)
        · dsimp only at hum'
          rw [hum] at hum'
          cases hum'
          obtain ⟨hcid, _, hcev, _, _⟩ := contextualizeTrigger_preserves hctx
          refine ⟨cT, ?_, by rw [hcid, hid], by rw [hcev], fun ae hae => ?_⟩
          · rw [foldl_indexAdd_triggers]
            have hck : cT.triggerID = k := by rw [hcid, hid]
            rw [← hck]
            simp [mapLookup_mapInsert_self]
          · exact mem_indexList_foldl_indexAdd_self _ _ _ (by rw [hcev]; exact hae)
      obtain ⟨trg1, hl1, hid1, hev1, hidx1⟩ := hstep
      have hkne : ∀ e ∈ rest, ∀ T'', env.unmarshalJSONTrigger e.2 = .ok T'' →
          T''.triggerID ≠ k := by
        intro e he T'' hT'' hek
        apply hnodup.1
        have h5 : e.1 ∈ rest.map Prod.fst := List.mem_map_of_mem _ he
        rw [hkeys e (List.mem_cons_of_mem _ he) T'' hT''] at hek
        exact hek ▸ h5
      refine ⟨trg1, ?_, hid1, hev1, fun ae hae => ?_⟩
      · rw [updateTriggersWith_lookup_stable h2 hkne]
        exact hl1
      · exact updateTriggersWith_index_mono h2 (hidx1 ae hae)
    · -- our entry is in the tail: transfer the hypotheses across the head step
      have hkinrest : k ∈ rest.map Prod.fst := List.mem_map_of_mem _ hrest
      have hstable : mapLookup k ws1.triggers = mapLookup k ws.triggers :=
        processStoredTrigger_lookup_stable h1 (fun T' hT' hek => by
          rw [hkeys entry (List.mem_cons_self _ _) T' hT'] at hek
          exact hnodup.1 (hek ▸ hkinrest))
      exact ih h2 hrest (fun e he => hkeys e (List.mem_cons_of_mem _ he)) hnodup.2
        (processStoredTrigger_registryIndexed h1 hinv)
        (fun trg0 h0 => hagree trg0 (hstable ▸ h0))

/-- C3: `updateTriggers` is idempotent.  Under the storage contract that
each stored entry's key is the unmarshalled trigger's identifier, running
reconciliation a second time with the stored trigger set unchanged leaves
the registry and the index exactly as the first run left them: every entry
is already registered (or fails to unmarshal again) and is skipped, so the
second run returns the same workspace unchanged. -/
theorem c3_updateTriggers_idempotent
    {env : Env} {storage : List (String × String)} {ws ws' : Workspace}
    (hrun : updateTriggersWith env ws storage = .ok ws')
    (hkeys : ∀ entry ∈ storage, ∀ T', env.unmarshalJSONTrigger entry.2 = .ok T' →
      T'.triggerID = entry.1) :
    updateTriggersWith env ws' storage = .ok ws' := by
  apply updateTriggersWith_all_identity
  intro entry hentry
  cases hlk : mapLookup entry.1 ws'.triggers with
  | some v => exact processStoredTrigger_skip (by simp [hlk])
  | none =>
    cases hum : env.unmarshalJSONTrigger entry.2 with
    | error e => exact processStoredTrigger_unmarshal_error hum
    | ok T =>
      have hreg : (mapLookup entry.1 ws'.triggers).isSome = true :=
        updateTriggersWith_registers hrun hentry hum (hkeys entry hentry T hum)
      rw [hlk] at hreg
      exact absurd hreg (by simp)

/-- C6: a stored trigger whose JSON fails to unmarshal during reconciliation
is logged and skipped: the run over a storage list containing the malformed
entry returns exactly the run over the same list without it, so the entry is
added to neither the registry nor the index and every remaining entry is
still processed. -/
theorem c6_malformed_trigger_skipped
    {env : Env} {pre post : List (String × String)} {ws : Workspace}
    {k badJson e : String}
    (hbad : env.unmarshalJSONTrigger badJson = .error e) :
    updateTriggersWith env ws (pre ++ (k, badJson) :: post) =
      updateTriggersWith env ws (pre ++ post) := by
  rw [updateTriggersWith_append, updateTriggersWith_append]
  cases hpre : updateTriggersWith env ws pre with
  | error e' => rfl
  | ok ws1 =>
    dsimp only
    exact updateTriggersWith_cons_ok post (processStoredTrigger_unmarshal_error hbad)

/-- C7: a parser invocation error during contextualization of a freshly
stored trigger aborts the whole reconciliation: `updateTriggers` on a
storage list reaching that trigger returns the parser error instead of
skipping it, abandoning all entries after it. -/
theorem c7_parser_error_aborts_reconciliation
    {env : Env} {pre post : List (String × String)} {ws ws1 : Workspace}
    {k json e : String} {T : Trigger}
    (hpre : updateTriggersWith env ws pre = .ok ws1)
    (hnew : mapLookup k ws1.triggers = none)
    (hum : env.unmarshalJSONTrigger json = .ok T)
    (hctx : contextualizeTrigger env T = .error e) :
    updateTriggersWith env ws (pre ++ (k, json) :: post) = .error e := by
  rw [updateTriggersWith_append, hpre]
  dsimp only
  exact updateTriggersWith_cons_error post (processStoredTrigger_ctx_error hnew hum hctx)

/-! ### Processor-trace lemmas -/

theorem processTrigger_cons_cond_error {env : Env} {trg : Trigger} {e : Event}
    {msg : String} (rest : List Event)
    (hc : env.evalCondition trg.condition trg.context e = .error msg) :
    processTrigger env trg (e :: rest) =
      { evaluated := [e], actionInvocations := [], fired := [], checkpointSpawns := 0,
        checkpointSends := [], terminated := true } := by
  simp [processTrigger, hc]

theorem processTrigger_cons_cond_false {env : Env} {trg : Trigger} {e : Event}
    (rest : List Event) (hc : env.evalCondition trg.condition trg.context e = .ok false) :
    processTrigger env trg (e :: rest) =
      { processTrigger env trg rest with
        evaluated := e :: (processTrigger env trg rest).evaluated } := by
  simp [processTrigger, hc]

theorem processTrigger_cons_action_error {env : Env} {trg : Trigger} {e : Event}
    {msg : String} (rest : List Event)
    (hc : env.evalCondition trg.condition trg.context e = .ok true)
    (ha : env.evalAction trg.action trg.context e = .error msg) :
    processTrigger env trg (e :: rest) =
      { evaluated := [e], actionInvocations := [e], fired := [], checkpointSpawns := 0,
        checkpointSends := [], terminated := true } := by
  simp [processTrigger, hc, ha]

theorem processTrigger_cons_fire {env : Env} {trg : Trigger} {e : Event}
    (rest : List Event) (hc : env.evalCondition trg.condition trg.context e = .ok true)
    (ha : env.evalAction trg.action trg.context e = .ok ()) :
    processTrigger env trg (e :: rest) =
      { evaluated := e :: (processTrigger env trg rest).evaluated,
        actionInvocations := e :: (processTrigger env trg rest).actionInvocations,
        fired := e :: (processTrigger env trg rest).fired,
        checkpointSpawns := (processTrigger env trg rest).checkpointSpawns + 1,
        checkpointSends := (processTrigger env trg rest).checkpointSends,
        terminated := (processTrigger env trg rest).terminated } := by
  simp [processTrigger, hc, ha]

theorem processTrigger_checkpointSends_nil (env : Env) (trg : Trigger) (q : List Event) :
    (processTrigger env trg q).checkpointSends = [] := by
  induction q with
  | nil => rfl
  | cons e rest ih =>
    unfold processTrigger
    cases hc : env.evalCondition trg.condition trg.context e with
    | error msg => rfl
    | ok b =>
      cases b
      · exact ih
      · cases ha : env.evalAction trg.action trg.context e with
        | error msg => rfl
        | ok u => exact ih

theorem processTrigger_evaluated_isPre (env : Env) (trg : Trigger) (q : List Event) :
    ∃ r, (processTrigger env trg q).evaluated ++ r = q := by
  induction q with
  | nil => exact ⟨[], rfl⟩
  | cons e rest ih =>
    unfold processTrigger
    cases hc : env.evalCondition trg.condition trg.context e with
    | error msg => exact ⟨rest, rfl⟩
    | ok b =>
      cases b
      · obtain ⟨r, hr⟩ := ih
        exact ⟨r, by simp only [List.cons_append, hr]⟩
      · cases ha : env.evalAction trg.action trg.context e with
        | error msg => exact ⟨rest, rfl⟩
        | ok u =>
          obtain ⟨r, hr⟩ := ih
          exact ⟨r, by simp only [List.cons_append, hr]⟩

/-! ### Dispatch lemmas -/

theorem dispatchEvent_hit {env : Env} {storage : List (String × String)} {ws : Workspace}
    {event : Event} {l : List Trigger}
    (hhit : indexLookup ws event.subject event.type = some l) :
    dispatchEvent env storage ws event =
      .ok { sends := l.map (fun t => (t, event)), updateCalls := 0, resubmitted := [],
            ws := ws } := by
  simp [dispatchEvent, hhit]

theorem dispatchLoop_hits {env : Env} {storage : List (String × String)} {ws : Workspace}
    {es : List Event}
    (hall : ∀ e ∈ es, (indexLookup ws e.subject e.type).isSome = true) :
    dispatchLoop env storage ws es = .ok (ws, hitSends ws es, []) := by
  induction es with
  | nil => rfl
  | cons e es ih =>
    obtain ⟨l, hl⟩ := Option.isSome_iff_exists.mp (hall e (List.mem_cons_self _ _))
    unfold dispatchLoop
    rw [dispatchEvent_hit hl]
    dsimp only
    rw [ih (fun x hx => hall x (List.mem_cons_of_mem _ hx))]
    dsimp only
    simp [hitSends, hl]

theorem hitSends_append (ws : Workspace) (es1 es2 : List Event) :
    hitSends ws (es1 ++ es2) = hitSends ws es1 ++ hitSends ws es2 := by
  simp [hitSends]

theorem queueOf_append (trg : Trigger) (s1 s2 : List (Trigger × Event)) :
    queueOf trg (s1 ++ s2) = queueOf trg s1 ++ queueOf trg s2 := by
  simp [queueOf, List.filter_append]

theorem queueOf_map_pair (trg : Trigger) (e : Event) (l : List Trigger) :
    queueOf trg (l.map (fun t => (t, e))) = List.replicate (l.count trg) e := by
  induction l with
  | nil => rfl
  | cons t l ih =>
    by_cases ht : t = trg
    · subst ht
      simp [queueOf, List.count_cons, List.replicate_succ] at ih ⊢
      exact ih
    · simp [queueOf, List.count_cons, ht, Ne.symm ht] at ih ⊢
      exact ih

theorem indexLookup_of_indexList_ne_nil {ws : Workspace} {ae : ActivationEvent}
    (h : indexList ws ae ≠ []) :
    indexLookup ws ae.subject ae.type = some (indexList ws ae) := by
  unfold indexList at h
  unfold indexLookup indexList
  cases hs : mapLookup ae.subject ws.triggerEventMapping with
  | none => simp [hs, mapLookup] at h
  | some m =>
    cases ht : mapLookup ae.type m with
    | none => simp [hs, ht] at h
    | some l => simp [hs, ht]

/-- A processor consuming a queue whose prefix evaluates without error
produces the prefix's normal trace followed by the trace of the remaining
queue: each prefix event is evaluated once, the condition-true ones fire
once each and spawn one checkpoint call each, and nothing is ever sent on
the checkpoint channel. -/
theorem processTrigger_ok_append {env : Env} {trg : Trigger} {pre : List Event}
    (q : List Event) (hpre : ∀ x ∈ pre, evalOk env trg x) :
    processTrigger env trg (pre ++ q) =
      { evaluated := pre ++ (processTrigger env trg q).evaluated,
        actionInvocations :=
          pre.filter (firesOn env trg) ++ (processTrigger env trg q).actionInvocations,
        fired := pre.filter (firesOn env trg) ++ (processTrigger env trg q).fired,
        checkpointSpawns :=
          (pre.filter (firesOn env trg)).length + (processTrigger env trg q).checkpointSpawns,
        checkpointSends := (processTrigger env trg q).checkpointSends,
        terminated := (processTrigger env trg q).terminated } := by
  induction pre with
  | nil => simp
  | cons p pre ih =>
    obtain ⟨⟨b, hb⟩, himp⟩ := hpre p (List.mem_cons_self _ _)
    have ihh := ih (fun x hx => hpre x (List.mem_cons_of_mem _ hx))
    cases b
    · have hf : firesOn env trg p = false := by simp [firesOn, hb]
      rw [List.cons_append, processTrigger_cons_cond_false _ hb, ihh]
      simp [ProcTrace.mk.injEq, hf, List.filter_cons]
    · have ha := himp hb
      have hf : firesOn env trg p = true := by simp [firesOn, hb]
      rw [List.cons_append, processTrigger_cons_fire _ hb ha, ihh]
      simp [ProcTrace.mk.injEq, hf, List.filter_cons]
      omega

/-! ### Claim theorems for dispatch and processing -/

/-- C4: an event received on the sink whose (subject, type) pair has no
entry in the activation index causes exactly one reconciliation call
(`updateTriggers`) and exactly one re-submission of that same event onto the
sink, and is forwarded to no trigger queue on that dispatch attempt. -/
theorem c4_miss_reconciles_and_resubmits_once
    {env : Env} {storage : List (String × String)} {ws ws' : Workspace} {event : Event}
    (hmiss : indexLookup ws event.subject event.type = none)
    (hupd : updateTriggersWith env ws storage = .ok ws') :
    dispatchEvent env storage ws event =
      .ok { sends := [], updateCalls := 1, resubmitted := [event], ws := ws' } := by
  simp [dispatchEvent, hmiss, hupd]

/-- C9: no statement of the worker ever sends a value on
`CheckpointChannel`: every processor run records an empty list of
checkpoint-channel sends, so every spawned `checkpointTriggers` invocation
drains an empty queue — it spawns `CommitEvents` on every registered
event-source adapter but serializes no trigger and issues no `Put` to the
triggers collection (and then blocks on the channel forever). -/
theorem c9_checkpoint_channel_never_fed (env : Env) (trg : Trigger) (q : List Event)
    (ws : Workspace) :
    (processTrigger env trg q).checkpointSends = [] ∧
      checkpointTriggers env ws [] =
        { commits := ws.eventSources, puts := [], marshalFailures := [] } :=
  ⟨processTrigger_checkpointSends_nil env trg q, rfl⟩

/-- C8: per-trigger FIFO.  Over a dispatch run in which every sink event
hits the index, the loop forwards events in sink order (the sends for an
earlier sink segment precede the sends for a later one), a trigger's private
queue receives its deliveries in exactly that order, and the trigger's
processor evaluates its queue in order (its evaluated list is a prefix of
the queue), so an event dispatched to a trigger earlier is evaluated before
any event dispatched to it later. -/
theorem c8_per_trigger_fifo
    {env : Env} {storage : List (String × String)} {ws : Workspace}
    {es1 es2 : List Event} (T : Trigger)
    (hall : ∀ e ∈ es1 ++ es2, (indexLookup ws e.subject e.type).isSome = true) :
    dispatchLoop env storage ws (es1 ++ es2) =
        .ok (ws, hitSends ws es1 ++ hitSends ws es2, []) ∧
      queueOf T (hitSends ws es1 ++ hitSends ws es2) =
        queueOf T (hitSends ws es1) ++ queueOf T (hitSends ws es2) ∧
      ∃ r, (processTrigger env T
          (queueOf T (hitSends ws es1 ++ hitSends ws es2))).evaluated ++ r =
        queueOf T (hitSends ws es1 ++ hitSends ws es2) := by
  refine ⟨?_, queueOf_append T _ _, processTrigger_evaluated_isPre env T _⟩
  rw [← hitSends_append]
  exact dispatchLoop_hits hall

/-- C10: a stored trigger declaring the same (subject, type) activation
event k times is appended k times to that pair's activation-index entry when
`updateTriggers` admits it, and one matching event is then sent to that
trigger's private queue k times by the dispatch loop. -/
theorem c10_duplicate_activation_event_duplicates_routing
    {env : Env} {storage : List (String × String)} {ws : Workspace}
    {entry : String × String} {T cT : Trigger} {ae : ActivationEvent} {event : Event}
    (hnone : mapLookup entry.1 ws.triggers = none)
    (hum : env.unmarshalJSONTrigger entry.2 = .ok T)
    (hctx : contextualizeTrigger env T = .ok cT)
    (hk : 0 < T.activationEvents.count ae)
    (hprior : (indexList ws ae).count cT = 0)
    (hsub : event.subject = ae.subject) (hty : event.type = ae.type) :
    ∃ ws1, processStoredTrigger env ws entry = .ok ws1 ∧
      (indexList ws1 ae).count cT = T.activationEvents.count ae ∧
      ∃ r, dispatchEvent env storage ws1 event = .ok r ∧
        queueOf cT r.sends = List.replicate (T.activationEvents.count ae) event := by
  have hcev := (contextualizeTrigger_preserves hctx).2.2.1
  refine ⟨_, processStoredTrigger_fresh hnone hum hctx, ?_, ?_⟩
  · rw [count_indexList_foldl_indexAdd, if_pos rfl, indexList_triggers_irrelevant,
      hprior, hcev]
    omega
  · have hcount : (indexList (cT.activationEvents.foldl (fun w a => indexAdd w a cT)
        { ws with triggers := mapInsert cT.triggerID cT ws.triggers }) ae).count cT =
        T.activationEvents.count ae := by
      rw [count_indexList_foldl_indexAdd, if_pos rfl, indexList_triggers_irrelevant,
        hprior, hcev]
      omega
    have hmem : cT ∈ indexList (cT.activationEvents.foldl (fun w a => indexAdd w a cT)
        { ws with triggers := mapInsert cT.triggerID cT ws.triggers }) ae := by
      rw [← List.count_pos_iff, hcount]
      exact hk
    have hhit := indexLookup_of_indexList_ne_nil (List.ne_nil_of_mem hmem)
    have hhit' : indexLookup (cT.activationEvents.foldl (fun w a => indexAdd w a cT)
        { ws with triggers := mapInsert cT.triggerID cT ws.triggers })
        event.subject event.type =
        some (indexList (cT.activationEvents.foldl (fun w a => indexAdd w a cT)
          { ws with triggers := mapInsert cT.triggerID cT ws.triggers }) ae) := by
      rw [hsub, hty]
      exact hhit
    refine ⟨_, dispatchEvent_hit hhit', ?_⟩
    rw [queueOf_map_pair, hcount]

/-- C5: a condition or action evaluation error on an event makes that
trigger's processor log the error and permanently stop consuming its private
queue (Terminated): events queued behind the erroring one are never
evaluated, the erroring action is invoked at most once (never retried), no
checkpoint call is spawned for the erroring event, nothing is ever sent on
the checkpoint channel, and sibling processors are untouched — the system
run is the pointwise run of each processor over its own queue. -/
theorem c5_eval_error_terminates_processor
    {env : Env} {trg : Trigger} {pre post : List Event} {e : Event} {msg : String}
    (others : List (Trigger × List Event))
    (hpre : ∀ x ∈ pre, evalOk env trg x)
    (herr : env.evalCondition trg.condition trg.context e = .error msg ∨
      (env.evalCondition trg.condition trg.context e = .ok true ∧
        env.evalAction trg.action trg.context e = .error msg)) :
    (processTrigger env trg (pre ++ e :: post)).evaluated = pre ++ [e] ∧
      (processTrigger env trg (pre ++ e :: post)).terminated = true ∧
      (processTrigger env trg (pre ++ e :: post)).fired = pre.filter (firesOn env trg) ∧
      (processTrigger env trg (pre ++ e :: post)).checkpointSpawns =
        (pre.filter (firesOn env trg)).length ∧
      (processTrigger env trg (pre ++ e :: post)).checkpointSends = [] ∧
      (env.evalCondition trg.condition trg.context e = .error msg →
        (processTrigger env trg (pre ++ e :: post)).actionInvocations =
          pre.filter (firesOn env trg)) ∧
      ((env.evalCondition trg.condition trg.context e = .ok true ∧
          env.evalAction trg.action trg.context e = .error msg) →
        (processTrigger env trg (pre ++ e :: post)).actionInvocations =
          pre.filter (firesOn env trg) ++ [e]) ∧
      runProcessors env ((trg, pre ++ e :: post) :: others) =
        processTrigger env trg (pre ++ e :: post) :: runProcessors env others := by
  rcases herr with hc | ⟨hc, ha⟩
  · have hstep := processTrigger_cons_cond_error post hc
    refine ⟨?_, ?_, ?_, ?_, ?_, fun _ => ?_,
        fun hca => by rw [hc] at hca; simp at hca, rfl⟩ <;>
      rw [processTrigger_ok_append (e :: post) hpre, hstep] <;> simp
  · have hstep := processTrigger_cons_action_error post hc ha
    refine ⟨?_, ?_, ?_, ?_, ?_, fun hce => by rw [hc] at hce; simp at hce,
        fun _ => ?_, rfl⟩ <;>
      rw [processTrigger_ok_append (e :: post) hpre, hstep] <;> simp

/-- C1 (against the claim): a trigger whose condition evaluates to true
exactly once, with the action completing without error, makes the processor
invoke the action exactly once and spawn exactly one `checkpointTriggers`
call — but it enqueues nothing onto the workspace's checkpoint queue
(`CheckpointChannel`), because no statement of the worker ever sends on that
channel; the claimed "exactly one checkpoint request enqueued" does not
happen. -/
theorem c1_single_fire_enqueues_no_checkpoint_request :
    (processTrigger testEnv t1 [ev1]).fired = [ev1] ∧
      (processTrigger testEnv t1 [ev1]).actionInvocations = [ev1] ∧
      (processTrigger testEnv t1 [ev1]).checkpointSpawns = 1 ∧
      (processTrigger testEnv t1 [ev1]).checkpointSends = [] :=
  ⟨rfl, rfl, rfl, rfl⟩

/-! ### Witness theorems: the claim theorems applied at concrete inputs -/

/-- Witness for the reconciliation registration/indexing theorem on a
one-trigger storage. -/
theorem c2_stored_trigger_registered_and_indexed_witness :
    ∃ trg, mapLookup "t1" ws1r.triggers = some trg ∧ trg.triggerID = "t1" ∧
      trg.activationEvents = t1.activationEvents ∧
      ∀ ae ∈ t1.activationEvents, trg ∈ indexList ws1r ae :=
  c2_stored_trigger_registered_and_indexed
    (show updateTriggersWith testEnv ws0 [("t1", "t1json")] = .ok ws1r from rfl)
    (by simp)
    (show testEnv.unmarshalJSONTrigger "t1json" = .ok t1 from rfl)
    (by
      intro entry he T' hT'
      simp at he
      subst he
      simp [testEnv] at hT'
      subst hT'
      rfl)
    (by simp)
    (by intro k trg h; simp [ws0, mapLookup] at h)
    (by intro trg0 h; simp [ws0, mapLookup] at h)

/-- Witness for idempotence: re-running reconciliation on the already
reconciled workspace with the same storage is the identity. -/
theorem c3_updateTriggers_idempotent_witness :
    updateTriggersWith testEnv ws1r [("t1", "t1json")] = .ok ws1r :=
  c3_updateTriggers_idempotent
    (show updateTriggersWith testEnv ws0 [("t1", "t1json")] = .ok ws1r from rfl)
    (by
      intro entry he T' hT'
      simp at he
      subst he
      simp [testEnv] at hT'
      subst hT'
      rfl)

/-- Witness for the cache-miss path on a concrete unmatched event. -/
theorem c4_miss_reconciles_and_resubmits_once_witness :
    dispatchEvent testEnv [] ws1r evMiss =
      .ok { sends := [], updateCalls := 1, resubmitted := [evMiss], ws := ws1r } :=
  c4_miss_reconciles_and_resubmits_once rfl rfl

/-- Witness for processor termination on a concrete action error, with a
sibling processor in the system run. -/
theorem c5_eval_error_terminates_processor_witness :
    (processTrigger testEnv tBadAct ([] ++ ev1 :: [ev2])).evaluated = [] ++ [ev1] ∧
      (processTrigger testEnv tBadAct ([] ++ ev1 :: [ev2])).terminated = true ∧
      (processTrigger testEnv tBadAct ([] ++ ev1 :: [ev2])).fired =
        List.filter (firesOn testEnv tBadAct) [] ∧
      (processTrigger testEnv tBadAct ([] ++ ev1 :: [ev2])).checkpointSpawns =
        (List.filter (firesOn testEnv tBadAct) []).length ∧
      (processTrigger testEnv tBadAct ([] ++ ev1 :: [ev2])).checkpointSends = [] ∧
      (testEnv.evalCondition tBadAct.condition tBadAct.context ev1 =
          .error "action failed" →
        (processTrigger testEnv tBadAct ([] ++ ev1 :: [ev2])).actionInvocations =
          List.filter (firesOn testEnv tBadAct) []) ∧
      ((testEnv.evalCondition tBadAct.condition tBadAct.context ev1 = .ok true ∧
          testEnv.evalAction tBadAct.action tBadAct.context ev1 =
            .error "action failed") →
        (processTrigger testEnv tBadAct ([] ++ ev1 :: [ev2])).actionInvocations =
          List.filter (firesOn testEnv tBadAct) [] ++ [ev1]) ∧
      runProcessors testEnv ((tBadAct, [] ++ ev1 :: [ev2]) :: [(t1, [ev2])]) =
        processTrigger testEnv tBadAct ([] ++ ev1 :: [ev2]) ::
          runProcessors testEnv [(t1, [ev2])] :=
  c5_eval_error_terminates_processor [(t1, [ev2])]
    (fun x hx => absurd hx (List.not_mem_nil x))
    (Or.inr ⟨rfl, rfl⟩)

/-- Witness for skipping a malformed stored trigger between well-formed
entries. -/
theorem c6_malformed_trigger_skipped_witness :
    updateTriggersWith testEnv ws0 ([("t1", "t1json")] ++ ("bad", "nope") :: []) =
      updateTriggersWith testEnv ws0 ([("t1", "t1json")] ++ []) :=
  c6_malformed_trigger_skipped
    (show testEnv.unmarshalJSONTrigger "nope" = .error "bad json" from rfl)

/-- Witness for reconciliation aborting on a concrete parser error. -/
theorem c7_parser_error_aborts_reconciliation_witness :
    updateTriggersWith testEnv ws0 ([] ++ ("t3", "badcfg") :: []) = .error "boom error" :=
  c7_parser_error_aborts_reconciliation rfl rfl rfl
    (show contextualizeTrigger testEnv tBadCfg = .error "boom error" from rfl)

/-- Witness for per-trigger FIFO over two concrete matching events. -/
theorem c8_per_trigger_fifo_witness :
    dispatchLoop testEnv [] ws1r ([ev1] ++ [ev2]) =
        .ok (ws1r, hitSends ws1r [ev1] ++ hitSends ws1r [ev2], []) ∧
      queueOf t1c (hitSends ws1r [ev1] ++ hitSends ws1r [ev2]) =
        queueOf t1c (hitSends ws1r [ev1]) ++ queueOf t1c (hitSends ws1r [ev2]) ∧
      ∃ r, (processTrigger testEnv t1c
          (queueOf t1c (hitSends ws1r ([ev1] ++ [ev2])))).evaluated ++ r =
        queueOf t1c (hitSends ws1r ([ev1] ++ [ev2])) :=
  c8_per_trigger_fifo t1c
    (by intro e he; simp at he; rcases he with rfl | rfl <;> rfl)

/-- Witness for duplicated activation events: a trigger declaring the same
pair twice is indexed twice and a matching event is delivered to it twice. -/
theorem c10_duplicate_activation_event_duplicates_routing_witness :
    ∃ ws1, processStoredTrigger testEnv ws0 ("t2", "dupjson") = .ok ws1 ∧
      (indexList ws1 ⟨"orders", "created"⟩).count tDupC =
        tDup.activationEvents.count ⟨"orders", "created"⟩ ∧
      ∃ r, dispatchEvent testEnv [] ws1 ev1 = .ok r ∧
        queueOf tDupC r.sends =
          List.replicate (tDup.activationEvents.count ⟨"orders", "created"⟩) ev1 :=
  c10_duplicate_activation_event_duplicates_routing rfl rfl
    (show contextualizeTrigger testEnv tDup = .ok tDupC from rfl)
    (by decide) rfl rfl rfl

end Triggerflow
